import Mathlib

/-!
Verification of the real-time transcript stream parser and code/speech
demultiplexer of the Agora Conversational AI coding assistant.

The development shallowly embeds the relevant TypeScript functions:
* `parseAgentResponse` (app/page.tsx): regex scan for `【...】` regions,
  markdown-fence cleanup, HTML-marker validation, removal of renderable
  regions from the spoken text;
* the transcription callback passed to `setTranscriptionCallback`
  (app/page.tsx): generation-state flag, transcript append and code-version
  commits gated on `isFinal`;
* `handleDisconnect` (app/page.tsx): session teardown that keeps the
  committed code blocks and current code;
* the RTM `message` event handler (lib/agora-client.ts): channel filter,
  tolerant payload parsing, text extraction and finality detection.

Strings are modelled as `List Char`; the JSON parser of the host platform is
an explicit function parameter of the handler.
-/

set_option autoImplicit false

namespace AgoraAssistant

/-- The open delimiter `【` recognised by the demultiplexer regex. -/
def openCh : Char := '【'

/-- The close delimiter `】` recognised by the demultiplexer regex. -/
def closeCh : Char := '】'

/-- Split a character list at the first occurrence of `c`: returns the part
before `c` and the part after it, or `none` when `c` does not occur. -/
def breakAtChar (c : Char) : List Char → Option (List Char × List Char)
  | [] => none
  | x :: xs =>
    if x = c then some ([], xs)
    else
      match breakAtChar c xs with
      | none => none
      | some (b, a) => some (x :: b, a)

/-- One item of the raw decomposition produced by scanning for
`【...】` regions, mirroring `text.matchAll(/【[\s\S]*?】/gi)`: the text
between matches and the content of each complete match. -/
inductive RawItem where
  | speech (s : List Char)
  | region (content : List Char)
deriving DecidableEq

/-- Fuelled scan for delimited regions.  Each step finds the next `【`, then
the first `】` after it (the regex quantifier is lazy, so the first close
marker terminates the region); if either marker is missing the remaining
text is speech.  The fuel only bounds the number of regions; with fuel
`l.length` it never runs out, and the fuel-exhausted fallback keeps the
whole remaining text as speech. -/
def regionsF : Nat → List Char → List RawItem
  | 0, l => [RawItem.speech l]
  | Nat.succ fuel, l =>
    match breakAtChar openCh l with
    | none => [RawItem.speech l]
    | some (b, rest) =>
      match breakAtChar closeCh rest with
      | none => [RawItem.speech l]
      | some (content, after) =>
        RawItem.speech b :: RawItem.region content :: regionsF fuel after

/-- The raw decomposition of the text of a fragment into inter-match speech and
complete `【...】` region contents, in order. -/
def regions (l : List Char) : List RawItem := regionsF l.length l

/-- The verbatim source text of a raw item; a region reassembles with its
delimiters re-inserted. -/
def rawText : RawItem → List Char
  | RawItem.speech s => s
  | RawItem.region c => openCh :: (c ++ [closeCh])

/-- JS `\w`: ASCII letters, digits and underscore. -/
def isWordChar (c : Char) : Bool := c.isAlphanum || c = '_'

/-- After a leading triple backtick, the first cleanup replace consumes the
maximal run of word characters and then one optional newline. -/
def dropFenceInfo : List Char → List Char
  | [] => []
  | x :: xs => if isWordChar x then dropFenceInfo xs else if x = '\n' then xs else x :: xs

/-- The first cleanup replace of `parseAgentResponse`: without the `m`
regex flag the anchor only matches at the start, so at most one leading
fence line (three backticks, word characters, optional newline) is
removed. -/
def stripLeadingFence (l : List Char) : List Char :=
  match l with
  | '`' :: '`' :: '`' :: rest => dropFenceInfo rest
  | _ => l

/-- The second cleanup replace of `parseAgentResponse`: strips one trailing
triple backtick, if present. -/
def stripTrailingFence (l : List Char) : List Char :=
  match l.reverse with
  | '`' :: '`' :: '`' :: rest => rest.reverse
  | _ => l

/-- JS `String.prototype.trim`: drop whitespace from both ends. -/
def trimChars (l : List Char) : List Char :=
  ((l.dropWhile Char.isWhitespace).reverse.dropWhile Char.isWhitespace).reverse

/-- The cleanup applied to the content of a region in `parseAgentResponse`:
strip a leading fence line, strip a trailing fence, trim whitespace. -/
def cleanContent (c : List Char) : List Char :=
  trimChars (stripTrailingFence (stripLeadingFence c))

/-- The literal searched by `content.includes("<html")`. -/
def htmlNeedle : List Char := "<html".toList

/-- The literal searched by `content.includes("<!DOCTYPE")`. -/
def doctypeNeedle : List Char := "<!DOCTYPE".toList

/-- JS `String.prototype.includes`: does `pat` occur as a contiguous
subsequence of the list? -/
def containsSeq (pat : List Char) : List Char → Bool
  | [] => pat.isEmpty
  | x :: xs => pat.isPrefixOf (x :: xs) || containsSeq pat xs

/-- The check `content.includes("<html") || content.includes("<!DOCTYPE")`: the
validation in the source that a cleaned region content is renderable HTML. -/
def isRenderable (cleaned : List Char) : Bool :=
  containsSeq htmlNeedle cleaned || containsSeq doctypeNeedle cleaned

/-- A content span: narration, or a code payload carrying both the raw
region content and its cleaned form. -/
inductive ContentSpan where
  | speech (text : List Char)
  | codePayload (raw cleaned : List Char)
deriving DecidableEq

/-- Classification of one complete region: renderable content becomes a
code payload; otherwise the whole delimited text, delimiters included,
stays speech (the source leaves the match inside `spokenText`). -/
def classifySpan (content : List Char) : ContentSpan :=
  if isRenderable (cleanContent content) then
    ContentSpan.codePayload content (cleanContent content)
  else
    ContentSpan.speech (openCh :: (content ++ [closeCh]))

/-- Lift a raw decomposition item to a classified span. -/
def toSpan : RawItem → ContentSpan
  | RawItem.speech s => ContentSpan.speech s
  | RawItem.region c => classifySpan c

/-- The ordered span decomposition of the text of a fragment. -/
def contentSpans (l : List Char) : List ContentSpan := (regions l).map toSpan

/-- The verbatim source text of a span: code payloads reassemble from their
raw content with the delimiters re-inserted. -/
def spanRawText : ContentSpan → List Char
  | ContentSpan.speech s => s
  | ContentSpan.codePayload raw _ => openCh :: (raw ++ [closeCh])

/-- The narration contribution of a span: speech spans verbatim, code
payloads nothing (their text goes to the preview, not the transcript). -/
def speechText : ContentSpan → List Char
  | ContentSpan.speech s => s
  | ContentSpan.codePayload _ _ => []

/-- The span-level spoken narration of a text: the concatenation, in
order, of the texts of its speech spans. -/
def spokenOfSpans (l : List Char) : List Char :=
  ((contentSpans l).map speechText).flatten

/-- The contents of all complete regions of a text, in order. -/
def regionContents (l : List Char) : List (List Char) :=
  (regions l).filterMap fun it =>
    match it with
    | RawItem.region c => some c
    | RawItem.speech _ => none

/-- The `codes` array built by `parseAgentResponse`: the cleaned content of
every renderable region, in order of appearance. -/
def parseCodes (l : List Char) : List (List Char) :=
  (regionContents l).filterMap fun c =>
    if isRenderable (cleanContent c) then some (cleanContent c) else none

/-- Embedding of `str.replace(pat, "")` for a plain string pattern: remove the first
occurrence of `pat`, or leave the string unchanged when absent. -/
def replaceFirst (pat : List Char) : List Char → List Char
  | [] => []
  | x :: xs =>
    if pat.isPrefixOf (x :: xs) then List.drop pat.length (x :: xs)
    else x :: replaceFirst pat xs

/-- The `spokenText` accumulator of `parseAgentResponse` before the final
trim: for each renderable match, its full matched text (delimiters
included) is removed by a first-occurrence string replace. -/
def spokenRaw (l : List Char) : List Char :=
  (regionContents l).foldl
    (fun acc c =>
      if isRenderable (cleanContent c) then
        replaceFirst (openCh :: (c ++ [closeCh])) acc
      else acc) l

/-- The record returned by `parseAgentResponse`. -/
structure ParseResult where
  spokenText : List Char
  codes : List (List Char)
deriving DecidableEq

/-- Embedding of `parseAgentResponse` (app/page.tsx): extract renderable code payloads
and the remaining spoken text. -/
def parseAgentResponse (l : List Char) : ParseResult :=
  ⟨trimChars (spokenRaw l), parseCodes l⟩

/-- The speaker of a transcription message (`type: "agent" | "user"`). -/
inductive Speaker where
  | agent
  | user
deriving DecidableEq

/-- The `TranscriptionMessage` record delivered to the UI callback
(lib/agora-client.ts); the timestamp is irrelevant to the claims and
omitted. -/
structure TranscriptionMessage where
  type : Speaker
  text : List Char
  isFinal : Bool
deriving DecidableEq

/-- The page-level React state touched by the transcription callback and
`handleDisconnect` (app/page.tsx): connection and microphone flags, the
code-generation indicator, transcript entries, the committed code blocks
and the currently displayed code. -/
structure UIState where
  isConnected : Bool
  isMicActive : Bool
  isGeneratingCode : Bool
  transcript : List (Speaker × List Char)
  codeBlocks : List (List Char)
  currentCode : List Char
deriving DecidableEq

/-- Embedding of `message.text?.includes("【")`. -/
def hasOpenMarker (l : List Char) : Bool := decide (openCh ∈ l)

/-- First stage of the transcription callback: for an agent fragment whose
text contains the open marker, set the generating indicator to true while
interim and to false once final. -/
def genStep (m : TranscriptionMessage) (st : UIState) : UIState :=
  if m.type = Speaker.agent ∧ hasOpenMarker m.text = true then
    if m.isFinal = false then { st with isGeneratingCode := true }
    else { st with isGeneratingCode := false }
  else st

/-- Second stage of the transcription callback: append the spoken text to
the transcript, only when non-empty and the fragment is final. -/
def transcriptStep (m : TranscriptionMessage) (spoken : List Char) (st : UIState) : UIState :=
  if spoken ≠ [] ∧ m.isFinal = true then
    { st with transcript := st.transcript ++ [(m.type, spoken)] }
  else st

/-- Third stage of the transcription callback: when the fragment is final
and produced code payloads, push each onto the code-block list and advance
the current code to it. -/
def commitStep (m : TranscriptionMessage) (codes : List (List Char)) (st : UIState) : UIState :=
  if codes ≠ [] ∧ m.isFinal = true then
    codes.foldl
      (fun s c => { s with codeBlocks := s.codeBlocks ++ [c], currentCode := c }) st
  else st

/-- The transcription callback installed by `setTranscriptionCallback`
(app/page.tsx): parse the fragment, toggle the generating indicator for
agent fragments containing the open marker, append the spoken text to the
transcript only on final fragments, and commit code blocks (advancing the
current code to each) only on final fragments. -/
def handleMessage (m : TranscriptionMessage) (st : UIState) : UIState :=
  commitStep m (parseAgentResponse m.text).codes
    (transcriptStep m (parseAgentResponse m.text).spokenText (genStep m st))

/-- Embedding of `handleDisconnect` (app/page.tsx): reset connection state and clear the
transcript, deliberately leaving `codeBlocks` and `currentCode` alone. -/
def handleDisconnect (st : UIState) : UIState :=
  { st with isConnected := false, isMicActive := false, transcript := [] }

/-- The `object` discriminator for agent transcriptions. -/
def assistantTag : List Char := "assistant.transcription".toList

/-- The `object` discriminator for user transcriptions. -/
def userTag : List Char := "user.transcription".toList

/-- The fields of a parsed inbound RTM record that the message handler
reads (lib/agora-client.ts); absent fields are `none`. -/
structure MsgData where
  object : Option (List Char)
  text : Option (List Char)
  words : Option (List Char)
  transcription : Option (List Char)
  turnStatus : Option Int
  final : Option Bool
deriving DecidableEq

/-- The record parsed from an empty JSON object literal. -/
def emptyMsgData : MsgData := ⟨none, none, none, none, none, none⟩

/-- JS truthiness of an optional string field: present and non-empty. -/
def truthy : Option (List Char) → Bool
  | some s => !s.isEmpty
  | none => false

/-- Text extraction `data.text || data.words || data.transcription || ""`. -/
def extractText (d : MsgData) : List Char :=
  if truthy d.text = true then d.text.getD []
  else if truthy d.words = true then d.words.getD []
  else if truthy d.transcription = true then d.transcription.getD []
  else []

/-- Finality check `data.turn_status === 1 || data.final === true`. -/
def isFinalOfData (d : MsgData) : Bool :=
  decide (d.turnStatus = some 1) || decide (d.final = some true)

/-- The test `data.object === "assistant.transcription"` selects the agent lane. -/
def speakerOfData (d : MsgData) : Speaker :=
  if d.object = some assistantTag then Speaker.agent else Speaker.user

/-- The transcription branch of the RTM message handler: recognise a
transcription-like record, extract its text, and produce the callback
argument; an empty extracted text means the callback is not invoked. -/
def fragmentOfData (d : MsgData) : Option TranscriptionMessage :=
  if d.object = some assistantTag ∨ d.object = some userTag ∨
      truthy d.words = true ∨ truthy d.text = true then
    if extractText d ≠ [] then
      some ⟨speakerOfData d, extractText d, isFinalOfData d⟩
    else none
  else none

/-- The shapes an inbound RTM `event.message` can take: a raw string, a
wrapper with `customType === "text"` carrying `stringData`, or an already
structured record. -/
inductive RTMPayload where
  | str (s : List Char)
  | customText (stringData : Option (List Char))
  | structured (d : MsgData)

/-- An inbound RTM `message` event: the optional channel tag and the
payload. -/
structure RTMEvent where
  channelName : Option (List Char)
  message : RTMPayload

/-- Payload resolution of the handler, parameterised by the platform JSON
parser: JSON parse of a string payload, JSON parse of `stringData` with an
empty-object default on a `customType === "text"` wrapper, identity on a structured record.  A
parser failure (`none`) is the thrown-and-caught case: nothing is
produced. -/
def parsePayload (parseJson : List Char → Option MsgData) : RTMPayload → Option MsgData
  | RTMPayload.str s => parseJson s
  | RTMPayload.customText sd =>
    if truthy sd = true then parseJson (sd.getD []) else some emptyMsgData
  | RTMPayload.structured d => some d

/-- The RTM `message` event handler (lib/agora-client.ts): drop events
tagged for a foreign channel, resolve and parse the payload, and produce
the fragment handed to the transcription callback, or `none` when the
callback is not invoked. -/
def handleRTMEvent (parseJson : List Char → Option MsgData) (sessionChannel : List Char)
    (ev : RTMEvent) : Option TranscriptionMessage :=
  if truthy ev.channelName = true ∧ ev.channelName ≠ some sessionChannel then none
  else
    match parsePayload parseJson ev.message with
    | none => none
    | some d => fragmentOfData d

/-- End-to-end effect of one inbound RTM event on the page state: the
produced fragment, if any, is fed to the transcription callback. -/
def processEvent (parseJson : List Char → Option MsgData) (sessionChannel : List Char)
    (ev : RTMEvent) (st : UIState) : UIState :=
  match handleRTMEvent parseJson sessionChannel ev with
  | some m => handleMessage m st
  | none => st

/-- Modelled from the spec: the renderability criterion as §4.2 words it —
the cleaned content starts, after further trimming, with a case-insensitive
doctype declaration or an opening root-element tag.  Used to compare the
wording of the spec with the `includes`-based check of the source. -/
def specStartsWithRootMarker (cleaned : List Char) : Bool :=
  "<!doctype".toList.isPrefixOf ((trimChars cleaned).map Char.toLower) ||
  "<html".toList.isPrefixOf ((trimChars cleaned).map Char.toLower)

/-- A delimited region whose cleaned content contains a root marker without
starting with one. -/
def exC1 : List Char := "【hello <html></html>】".toList

/-- The content of the single region of `exC1`. -/
def exC1code : List Char := "hello <html></html>".toList

/-- Scenario input from the spec: final ambiguous bracketed content. -/
def exJK : List Char := "【just kidding, no code here】".toList

/-- The content of the single failing region of `exJK`. -/
def exJKContent : List Char := "just kidding, no code here".toList

/-- Scenario input from the spec: unterminated interim fragment. -/
def exOpenOnly : List Char := "【<!DOCTYPE html><h".toList

/-- A blank initial page state. -/
def st0 : UIState := ⟨false, false, false, [], [], []⟩

/-- A JSON parser that fails on every input. -/
def pjNone : List Char → Option MsgData := fun _ => none

/-- A short sample transcription text. -/
def hiText : List Char := "hi".toList

/-- The session channel used in concrete instantiations. -/
def mainChannel : List Char := "main".toList

/-- A foreign channel identifier. -/
def otherChannel : List Char := "other".toList

/-- An event whose string payload does not parse. -/
def evBad : RTMEvent := ⟨none, RTMPayload.str ("oops".toList)⟩

/-- An event tagged for a foreign channel. -/
def evForeign : RTMEvent := ⟨some otherChannel, RTMPayload.structured emptyMsgData⟩

/-- A well-formed final agent transcription record. -/
def exD6 : MsgData := ⟨some assistantTag, some hiText, none, none, some 1, none⟩

/-- A well-formed user transcription record with no finality signals. -/
def exD10 : MsgData := ⟨some userTag, some hiText, none, none, none, none⟩

/-- An event carrying `exD10` as an already structured payload. -/
def evOk : RTMEvent := ⟨none, RTMPayload.structured exD10⟩

/-- An interim agent fragment used to instantiate finality gating. -/
def exMsgInterim : TranscriptionMessage := ⟨Speaker.agent, exJK, false⟩

theorem breakAtChar_eq_some (c : Char) :
    ∀ (l b a : List Char), breakAtChar c l = some (b, a) → l = b ++ c :: a := by
  intro l
  induction l with
  | nil => intro b a h; simp [breakAtChar] at h
  | cons x xs ih =>
    intro b a h
    by_cases hx : x = c
    · simp only [breakAtChar, if_pos hx, Option.some.injEq, Prod.mk.injEq] at h
      obtain ⟨hb, ha⟩ := h
      subst hb; subst ha; subst hx
      rfl
    · cases hm : breakAtChar c xs with
      | none => simp [breakAtChar, hx, hm] at h
      | some p =>
        obtain ⟨b0, a0⟩ := p
        simp [breakAtChar, hx, hm] at h
        obtain ⟨hb, ha⟩ := h
        subst ha
        rw [← hb, List.cons_append]
        exact congrArg (x :: ·) (ih b0 a0 hm)

theorem breakAtChar_none_of_not_mem (c : Char) :
    ∀ (l : List Char), c ∉ l → breakAtChar c l = none := by
  intro l
  induction l with
  | nil => intro _; rfl
  | cons x xs ih =>
    intro h
    have hx : ¬ x = c := fun he => h (he ▸ List.mem_cons_self x xs)
    have hxs : c ∉ xs := fun hm => h (List.mem_cons_of_mem x hm)
    simp only [breakAtChar, if_neg hx, ih hxs]

theorem regionsF_flatten (fuel : Nat) :
    ∀ l : List Char, ((regionsF fuel l).map rawText).flatten = l := by
  induction fuel with
  | zero => intro l; simp [regionsF, rawText]
  | succ n ih =>
    intro l
    cases h1 : breakAtChar openCh l with
    | none => simp [regionsF, h1, rawText]
    | some p =>
      obtain ⟨b, rest⟩ := p
      cases h2 : breakAtChar closeCh rest with
      | none => simp [regionsF, h1, h2, rawText]
      | some q =>
        obtain ⟨content, after⟩ := q
        have e1 := breakAtChar_eq_some openCh l b rest h1
        have e2 := breakAtChar_eq_some closeCh rest content after h2
        simp only [regionsF, h1, h2]
        simp only [List.map_cons, List.flatten_cons, rawText, ih after]
        rw [e1, e2]
        simp [List.append_assoc]

theorem spanRawText_toSpan (it : RawItem) : spanRawText (toSpan it) = rawText it := by
  cases it with
  | speech s => rfl
  | region c =>
    simp only [toSpan, classifySpan, rawText]
    split <;> rfl

theorem regionsF_of_no_close (fuel : Nat) (l : List Char) (h : closeCh ∉ l) :
    regionsF fuel l = [RawItem.speech l] := by
  cases fuel with
  | zero => rfl
  | succ n =>
    cases h1 : breakAtChar openCh l with
    | none => simp [regionsF, h1]
    | some p =>
      obtain ⟨b, rest⟩ := p
      have e1 := breakAtChar_eq_some openCh l b rest h1
      have hrest : closeCh ∉ rest := by
        intro hm
        exact h (by rw [e1]; simp [hm])
      simp [regionsF, h1, breakAtChar_none_of_not_mem closeCh rest hrest]

theorem regionContents_of_no_close (l : List Char) (h : closeCh ∉ l) :
    regionContents l = [] := by
  simp [regionContents, regions, regionsF_of_no_close l.length l h]

theorem foldl_fixed {α β : Type} (f : α → β → α) :
    ∀ (xs : List β) (acc : α), (∀ x ∈ xs, ∀ a, f a x = a) → xs.foldl f acc = acc := by
  intro xs
  induction xs with
  | nil => intro acc _; rfl
  | cons x xs ih =>
    intro acc h
    rw [List.foldl_cons, h x (List.mem_cons_self x xs)]
    exact ih acc (fun y hy => h y (List.mem_cons_of_mem x hy))

theorem spokenRaw_of_no_renderable (l : List Char)
    (h : ∀ c ∈ regionContents l, isRenderable (cleanContent c) = false) :
    spokenRaw l = l := by
  unfold spokenRaw
  refine foldl_fixed _ _ _ ?_
  intro c hc a
  simp [h c hc]

theorem parseCodes_of_no_renderable (l : List Char)
    (h : ∀ c ∈ regionContents l, isRenderable (cleanContent c) = false) :
    parseCodes l = [] := by
  unfold parseCodes
  rw [List.filterMap_eq_nil_iff]
  intro c hc
  simp [h c hc]

theorem parseAgentResponse_of_no_renderable (l : List Char)
    (h : ∀ c ∈ regionContents l, isRenderable (cleanContent c) = false) :
    parseAgentResponse l = ⟨trimChars l, []⟩ := by
  unfold parseAgentResponse
  rw [spokenRaw_of_no_renderable l h, parseCodes_of_no_renderable l h]

theorem genStep_transcript (m : TranscriptionMessage) (st : UIState) :
    (genStep m st).transcript = st.transcript := by
  unfold genStep
  split
  · split <;> rfl
  · rfl

theorem genStep_codeBlocks (m : TranscriptionMessage) (st : UIState) :
    (genStep m st).codeBlocks = st.codeBlocks := by
  unfold genStep
  split
  · split <;> rfl
  · rfl

theorem genStep_currentCode (m : TranscriptionMessage) (st : UIState) :
    (genStep m st).currentCode = st.currentCode := by
  unfold genStep
  split
  · split <;> rfl
  · rfl

theorem genStep_agent_interim (m : TranscriptionMessage) (st : UIState)
    (ht : m.type = Speaker.agent) (hop : hasOpenMarker m.text = true)
    (hf : m.isFinal = false) :
    genStep m st = { st with isGeneratingCode := true } := by
  unfold genStep
  rw [if_pos ⟨ht, hop⟩, if_pos hf]

theorem transcriptStep_codeBlocks (m : TranscriptionMessage) (spoken : List Char)
    (st : UIState) : (transcriptStep m spoken st).codeBlocks = st.codeBlocks := by
  unfold transcriptStep
  split <;> rfl

theorem transcriptStep_currentCode (m : TranscriptionMessage) (spoken : List Char)
    (st : UIState) : (transcriptStep m spoken st).currentCode = st.currentCode := by
  unfold transcriptStep
  split <;> rfl

theorem transcriptStep_of_final (m : TranscriptionMessage) (spoken : List Char)
    (st : UIState) (hsp : spoken ≠ []) (hf : m.isFinal = true) :
    transcriptStep m spoken st
      = { st with transcript := st.transcript ++ [(m.type, spoken)] } := by
  unfold transcriptStep
  rw [if_pos ⟨hsp, hf⟩]

theorem transcriptStep_of_not_final (m : TranscriptionMessage) (spoken : List Char)
    (st : UIState) (hf : m.isFinal = false) : transcriptStep m spoken st = st := by
  unfold transcriptStep
  rw [if_neg]
  intro hc
  rw [hf] at hc
  exact absurd hc.2 (by simp)

theorem commitStep_of_empty (m : TranscriptionMessage) (st : UIState) :
    commitStep m [] st = st := by
  unfold commitStep
  rw [if_neg]
  intro hc
  exact hc.1 rfl

theorem commitStep_of_not_final (m : TranscriptionMessage) (codes : List (List Char))
    (st : UIState) (hf : m.isFinal = false) : commitStep m codes st = st := by
  unfold commitStep
  rw [if_neg]
  intro hc
  rw [hf] at hc
  exact absurd hc.2 (by simp)

/-- Claim C2: concatenating the raw texts of all spans of the
ordered decomposition of the demultiplexer, in order, with the open and close
delimiters re-inserted around each code-payload span, reproduces the
original input exactly. -/
theorem claim_C2_roundtrip (text : List Char) :
    ((contentSpans text).map spanRawText).flatten = text := by
  unfold contentSpans
  rw [List.map_map]
  have h : spanRawText ∘ toSpan = rawText := funext spanRawText_toSpan
  rw [h]
  exact regionsF_flatten text.length text

/-- Claim C8: disconnecting clears the transcript and the
connection/microphone state while leaving the committed code-version list
and the current-code pointer unchanged. -/
theorem claim_C8_disconnect_frame (st : UIState) :
    (handleDisconnect st).codeBlocks = st.codeBlocks ∧
    (handleDisconnect st).currentCode = st.currentCode ∧
    (handleDisconnect st).transcript = [] ∧
    (handleDisconnect st).isConnected = false ∧
    (handleDisconnect st).isMicActive = false :=
  ⟨rfl, rfl, rfl, rfl, rfl⟩

/-- Claim C4: a fragment with `isFinal = false` never appends a code
version and never moves the current-code pointer. -/
theorem claim_C4_finality_gating (m : TranscriptionMessage) (st : UIState)
    (h : m.isFinal = false) :
    (handleMessage m st).codeBlocks = st.codeBlocks ∧
    (handleMessage m st).currentCode = st.currentCode := by
  unfold handleMessage
  rw [commitStep_of_not_final _ _ _ h, transcriptStep_of_not_final _ _ _ h]
  exact ⟨genStep_codeBlocks m st, genStep_currentCode m st⟩

/-- Witness for claim C4 at a concrete interim fragment. -/
theorem claim_C4_witness :
    exMsgInterim.isFinal = false ∧
    ((handleMessage exMsgInterim st0).codeBlocks = st0.codeBlocks ∧
      (handleMessage exMsgInterim st0).currentCode = st0.currentCode) :=
  ⟨rfl, claim_C4_finality_gating exMsgInterim st0 rfl⟩

/-- Counterexample to claim C1 as stated: the fragment
`【hello <html></html>】` has one completed region whose cleaned content is
classified as a renderable code payload by the code, although that cleaned
content does not start (after further trimming, case-insensitively) with a
doctype declaration or an opening root-element tag. -/
theorem claim_C1_counterexample :
    regionContents exC1 = [exC1code] ∧
    (parseAgentResponse exC1).codes = [cleanContent exC1code] ∧
    specStartsWithRootMarker (cleanContent exC1code) = false := by
  decide

/-- Claim C1 (amended): the cleaned content of a completed region is emitted as
a renderable code payload iff it contains the case-sensitive substring
`<html` or `<!DOCTYPE` anywhere, not necessarily at the start. -/
theorem claim_C1_renderable_iff (text c : List Char) (h : c ∈ regionContents text) :
    cleanContent c ∈ (parseAgentResponse text).codes ↔
      (containsSeq htmlNeedle (cleanContent c) ||
        containsSeq doctypeNeedle (cleanContent c)) = true := by
  constructor
  · intro hc
    have hc2 : cleanContent c ∈ parseCodes text := hc
    unfold parseCodes at hc2
    rw [List.mem_filterMap] at hc2
    obtain ⟨r, _, heq⟩ := hc2
    by_cases hrend : isRenderable (cleanContent r) = true
    · rw [if_pos hrend] at heq
      have hrc : cleanContent r = cleanContent c := by
        exact Option.some.inj heq
      rw [hrc] at hrend
      exact hrend
    · rw [if_neg hrend] at heq
      exact absurd heq (by simp)
  · intro hcontains
    show cleanContent c ∈ parseCodes text
    unfold parseCodes
    rw [List.mem_filterMap]
    refine ⟨c, h, ?_⟩
    rw [if_pos]
    exact hcontains

/-- Witness for the amended claim C1 at the concrete fragment `exC1`. -/
theorem claim_C1_witness :
    exC1code ∈ regionContents exC1 ∧
    (cleanContent exC1code ∈ (parseAgentResponse exC1).codes ↔
      (containsSeq htmlNeedle (cleanContent exC1code) ||
        containsSeq doctypeNeedle (cleanContent exC1code)) = true) := by
  have h : exC1code ∈ regionContents exC1 := by decide
  exact ⟨h, claim_C1_renderable_iff exC1 exC1code h⟩

/-- Every region content of a text arises from a region item of its raw
decomposition. -/
theorem region_mem_of_mem_regionContents (text c : List Char)
    (h : c ∈ regionContents text) : RawItem.region c ∈ regions text := by
  unfold regionContents at h
  rw [List.mem_filterMap] at h
  obtain ⟨it, hit, heq⟩ := h
  cases it with
  | region c2 =>
    have hc : c2 = c := Option.some.inj heq
    rw [← hc]
    exact hit
  | speech s => exact absurd heq (by simp)

/-- Concatenating a list of lists exhibits every member as a contiguous
block of the concatenation. -/
theorem flatten_mem_split {α : Type} :
    ∀ (L : List (List α)) (x : List α), x ∈ L →
      ∃ pre post, L.flatten = pre ++ (x ++ post) := by
  intro L
  induction L with
  | nil => intro x hx; exact absurd hx (List.not_mem_nil x)
  | cons y ys ih =>
    intro x hx
    rcases List.mem_cons.mp hx with he | hm
    · refine ⟨[], ys.flatten, ?_⟩
      rw [he]
      simp
    · obtain ⟨pre, post, hp⟩ := ih x hm
      refine ⟨y ++ pre, post, ?_⟩
      rw [List.flatten_cons, hp, List.append_assoc]

/-- Claim C3: every delimited region whose content fails the document-root
heuristic — in any fragment, also one that contains renderable regions
elsewhere — is reclassified as one verbatim speech span, delimiters
included, appears verbatim as a contiguous block of the span-level spoken
narration, and is never emitted as a code payload; in particular the final
input 【just kidding, no code here】 parses to the whole bracketed text as
spoken text with no codes, and processing it as a final agent fragment
puts the whole bracketed text, brackets included, into the transcript
while committing nothing. -/
theorem claim_C3_fallback_speech (text c : List Char)
    (h : c ∈ regionContents text)
    (hfail : isRenderable (cleanContent c) = false) :
    ContentSpan.speech (openCh :: (c ++ [closeCh])) ∈ contentSpans text ∧
    (∃ pre post,
      spokenOfSpans text = pre ++ ((openCh :: (c ++ [closeCh])) ++ post)) ∧
    cleanContent c ∉ (parseAgentResponse text).codes ∧
    parseAgentResponse exJK = ⟨exJK, []⟩ ∧
    (handleMessage ⟨Speaker.agent, exJK, true⟩ st0).transcript
      = [(Speaker.agent, exJK)] ∧
    (handleMessage ⟨Speaker.agent, exJK, true⟩ st0).codeBlocks = [] := by
  have hspan : ContentSpan.speech (openCh :: (c ++ [closeCh])) ∈ contentSpans text := by
    have hmem := region_mem_of_mem_regionContents text c h
    unfold contentSpans
    rw [List.mem_map]
    refine ⟨RawItem.region c, hmem, ?_⟩
    simp only [toSpan, classifySpan, hfail]
    rw [if_neg (by simp)]
  refine ⟨hspan, ?_, ?_, by decide, by decide, by decide⟩
  · have hx : openCh :: (c ++ [closeCh]) ∈ (contentSpans text).map speechText := by
      rw [List.mem_map]
      exact ⟨ContentSpan.speech (openCh :: (c ++ [closeCh])), hspan, rfl⟩
    unfold spokenOfSpans
    exact flatten_mem_split _ _ hx
  · intro hcmem
    have hc2 : cleanContent c ∈ parseCodes text := hcmem
    unfold parseCodes at hc2
    rw [List.mem_filterMap] at hc2
    obtain ⟨r, _, heq⟩ := hc2
    by_cases hrend : isRenderable (cleanContent r) = true
    · rw [if_pos hrend] at heq
      have hrc : cleanContent r = cleanContent c := Option.some.inj heq
      rw [hrc] at hrend
      rw [hrend] at hfail
      exact absurd hfail (by simp)
    · rw [if_neg hrend] at heq
      exact absurd heq (by simp)

/-- Witness for claim C3 at the scenario input of the spec,
`【just kidding, no code here】`, whose single region fails the heuristic. -/
theorem claim_C3_witness :
    exJKContent ∈ regionContents exJK ∧
    isRenderable (cleanContent exJKContent) = false ∧
    (ContentSpan.speech (openCh :: (exJKContent ++ [closeCh])) ∈ contentSpans exJK ∧
      (∃ pre post,
        spokenOfSpans exJK = pre ++ ((openCh :: (exJKContent ++ [closeCh])) ++ post)) ∧
      cleanContent exJKContent ∉ (parseAgentResponse exJK).codes ∧
      parseAgentResponse exJK = ⟨exJK, []⟩ ∧
      (handleMessage ⟨Speaker.agent, exJK, true⟩ st0).transcript
        = [(Speaker.agent, exJK)] ∧
      (handleMessage ⟨Speaker.agent, exJK, true⟩ st0).codeBlocks = []) := by
  have h1 : exJKContent ∈ regionContents exJK := by decide
  have h2 : isRenderable (cleanContent exJKContent) = false := by decide
  exact ⟨h1, h2, claim_C3_fallback_speech exJK exJKContent h1 h2⟩

/-- Claim C5: a fragment containing the open marker with no close marker
anywhere never yields a code payload, so no version is ever committed from
it; an interim agent fragment of this shape changes the state only by
setting the generation indicator to true. -/
theorem claim_C5_conservative (text : List Char) (st : UIState)
    (h1 : openCh ∈ text) (h2 : closeCh ∉ text) :
    (parseAgentResponse text).codes = [] ∧
    (∀ (sp : Speaker) (fin : Bool),
      (handleMessage ⟨sp, text, fin⟩ st).codeBlocks = st.codeBlocks) ∧
    handleMessage ⟨Speaker.agent, text, false⟩ st
      = { st with isGeneratingCode := true } := by
  have hrc := regionContents_of_no_close text h2
  have hcodes : parseCodes text = [] := by
    unfold parseCodes
    rw [hrc]
    rfl
  have hpc : (parseAgentResponse text).codes = [] := hcodes
  refine ⟨hpc, ?_, ?_⟩
  · intro sp fin
    simp only [handleMessage, hpc]
    rw [commitStep_of_empty, transcriptStep_codeBlocks, genStep_codeBlocks]
  · have hop : hasOpenMarker text = true := by
      simp [hasOpenMarker, h1]
    simp only [handleMessage, hpc]
    rw [commitStep_of_empty, transcriptStep_of_not_final _ _ _ rfl,
      genStep_agent_interim _ _ rfl hop rfl]

/-- Witness for claim C5 at the unterminated interim scenario of the spec,
`【<!DOCTYPE html><h`. -/
theorem claim_C5_witness :
    openCh ∈ exOpenOnly ∧ closeCh ∉ exOpenOnly ∧
    ((parseAgentResponse exOpenOnly).codes = [] ∧
      (∀ (sp : Speaker) (fin : Bool),
        (handleMessage ⟨sp, exOpenOnly, fin⟩ st0).codeBlocks = st0.codeBlocks) ∧
      handleMessage ⟨Speaker.agent, exOpenOnly, false⟩ st0
        = { st0 with isGeneratingCode := true }) := by
  have h1 : openCh ∈ exOpenOnly := by decide
  have h2 : closeCh ∉ exOpenOnly := by decide
  exact ⟨h1, h2, claim_C5_conservative exOpenOnly st0 h1 h2⟩

/-- Claim C6: every successfully produced fragment is final exactly when
the field `turn_status` of the parsed record equals 1 or its `final` flag is true,
either signal alone sufficing. -/
theorem claim_C6_finality_or (d : MsgData) (frag : TranscriptionMessage)
    (h : fragmentOfData d = some frag) :
    (frag.isFinal = true ↔ (d.turnStatus = some 1 ∨ d.final = some true)) := by
  unfold fragmentOfData at h
  split at h
  · split at h
    · have hfrag := Option.some.inj h
      rw [← hfrag]
      simp [isFinalOfData]
    · exact absurd h (by simp)
  · exact absurd h (by simp)

/-- Witness for claim C6 at a final agent record with `turn_status = 1`. -/
theorem claim_C6_witness :
    fragmentOfData exD6 = some ⟨Speaker.agent, hiText, true⟩ ∧
    ((⟨Speaker.agent, hiText, true⟩ : TranscriptionMessage).isFinal = true ↔
      (exD6.turnStatus = some 1 ∨ exD6.final = some true)) := by
  have h : fragmentOfData exD6 = some ⟨Speaker.agent, hiText, true⟩ := by decide
  exact ⟨h, claim_C6_finality_or exD6 _ h⟩

/-- Claim C7: an inbound message whose payload fails to parse is dropped:
the callback receives nothing and the page state is unchanged. -/
theorem claim_C7_parse_failure (pj : List Char → Option MsgData) (sc : List Char)
    (ev : RTMEvent) (st : UIState) (h : parsePayload pj ev.message = none) :
    handleRTMEvent pj sc ev = none ∧ processEvent pj sc ev st = st := by
  have h1 : handleRTMEvent pj sc ev = none := by
    unfold handleRTMEvent
    split
    · rfl
    · rw [h]
  refine ⟨h1, ?_⟩
  unfold processEvent
  rw [h1]

/-- Witness for claim C7 with an always-failing parser. -/
theorem claim_C7_witness :
    parsePayload pjNone evBad.message = none ∧
    (handleRTMEvent pjNone mainChannel evBad = none ∧
      processEvent pjNone mainChannel evBad st0 = st0) :=
  ⟨rfl, claim_C7_parse_failure pjNone mainChannel evBad st0 rfl⟩

/-- Claim C9: a message tagged with a non-empty channel identifier
different from the session channel is ignored: no fragment is produced
and the state is unchanged. -/
theorem claim_C9_foreign_channel (pj : List Char → Option MsgData) (sc ch : List Char)
    (ev : RTMEvent) (st : UIState) (h1 : ev.channelName = some ch) (h2 : ch ≠ [])
    (h3 : ch ≠ sc) :
    handleRTMEvent pj sc ev = none ∧ processEvent pj sc ev st = st := by
  have hcond : truthy ev.channelName = true ∧ ev.channelName ≠ some sc := by
    constructor
    · rw [h1]
      simp [truthy, h2]
    · rw [h1]
      intro hco
      exact h3 (Option.some.inj hco)
  have h4 : handleRTMEvent pj sc ev = none := by
    unfold handleRTMEvent
    rw [if_pos hcond]
  refine ⟨h4, ?_⟩
  unfold processEvent
  rw [h4]

/-- Witness for claim C9 at a concrete foreign-channel event. -/
theorem claim_C9_witness :
    evForeign.channelName = some otherChannel ∧ otherChannel ≠ [] ∧
    otherChannel ≠ mainChannel ∧
    (handleRTMEvent pjNone mainChannel evForeign = none ∧
      processEvent pjNone mainChannel evForeign st0 = st0) :=
  ⟨rfl, by decide, by decide,
    claim_C9_foreign_channel pjNone mainChannel otherChannel evForeign st0 rfl
      (by decide) (by decide)⟩

/-- Claim C10: the transcription callback is never invoked with an empty
text: any fragment the handler produces has non-empty text. -/
theorem claim_C10_nonempty_text (pj : List Char → Option MsgData) (sc : List Char)
    (ev : RTMEvent) (frag : TranscriptionMessage)
    (h : handleRTMEvent pj sc ev = some frag) : frag.text ≠ [] := by
  unfold handleRTMEvent at h
  split at h
  · exact absurd h (by simp)
  · cases hp : parsePayload pj ev.message with
    | none =>
      rw [hp] at h
      exact absurd h (by simp)
    | some d =>
      rw [hp] at h
      simp only [] at h
      unfold fragmentOfData at h
      split at h
      · split at h
        · have hfrag := Option.some.inj h
          rw [← hfrag]
          rename_i hne
          exact hne
        · exact absurd h (by simp)
      · exact absurd h (by simp)

/-- Witness for claim C10 at a concrete user transcription event. -/
theorem claim_C10_witness :
    handleRTMEvent pjNone mainChannel evOk = some ⟨Speaker.user, hiText, false⟩ ∧
    (⟨Speaker.user, hiText, false⟩ : TranscriptionMessage).text ≠ [] := by
  have h : handleRTMEvent pjNone mainChannel evOk
      = some ⟨Speaker.user, hiText, false⟩ := by decide
  exact ⟨h, claim_C10_nonempty_text pjNone mainChannel evOk _ h⟩

end AgoraAssistant
